import Mathlib

/-!
Verification of the financial domain core of the whatsapp-farma backend:
Money, ClientBalance, Client, Transaction, TransactionNumberGenerator and
ClientValidator, embedded shallowly from the Python source under
`src/app/domain/`.  Monetary amounts are represented by their exact value in
cents (an integer), which is the invariant `Money.__post_init__` establishes
by quantizing every amount to two decimal places; constructor inputs are
modelled as rationals (every Python `Decimal` is a rational).  Methods that
can raise return `Except DomainError` when they are pure, and
`Option DomainError × State` when the Python method mutates `self`, so that
the state at the moment of a raise is visible.
-/

/-- Errors raised by the domain core (`app/domain/exceptions`); `valueError`
is Python's builtin `ValueError`, raised by `Money` and `ClientBalance`. -/
inductive DomainError where
  | valueError
  | validationError
  | creditLimitExceeded
  | businessRuleViolation
  | invalidStateTransition (from_state to_state : String)
  deriving Repr, DecidableEq

/-- `Decimal.quantize(Decimal("0.01"), rounding=ROUND_HALF_UP)` applied to a
rational `q`, returning the resulting number of cents.  `ROUND_HALF_UP`
rounds to the nearest cent with ties going away from zero. -/
def halfUpCents (q : ℚ) : ℤ :=
  if 0 ≤ q then ⌊100 * q + 1 / 2⌋ else -⌊100 * (-q) + 1 / 2⌋

/-- `Money` (`money.py`): after `__post_init__` the amount is always an exact
number of cents, stored here as `cents`; the represented decimal amount is
`cents / 100`. -/
structure Money where
  cents : ℤ
  currency : String
  deriving Repr, DecidableEq

/-- The decimal amount a `Money` carries. -/
def Money.amountQ (m : Money) : ℚ := (m.cents : ℚ) / 100

/-- `Money.__post_init__` on raw input: reject a currency whose length is not
3, then quantize the amount half-up to 2 decimal places. -/
def Money.ofAmount (q : ℚ) (currency : String) : Except DomainError Money :=
  if currency.length ≠ 3 then .error .valueError
  else .ok ⟨halfUpCents q, currency⟩

/-- Python `str.upper`, character by character (ASCII; currency codes). -/
def pyUpper (s : String) : String := String.mk (s.data.map Char.toUpper)

/-- `Money.create`: upper-cases the currency and builds the object
(`__post_init__` validates and rounds). -/
def Money.create (q : ℚ) (currency : String) : Except DomainError Money :=
  Money.ofAmount q (pyUpper currency)

/-- `Money.zero` for a currency already carried by an existing `Money`
(such currencies passed the length check at construction). -/
def Money.zero (currency : String) : Money := ⟨0, currency⟩

/-- `Money.add`: raises `ValueError` on currency mismatch; on matching
currencies the sum of two cent-exact amounts is cent-exact, so the
re-quantization in `__post_init__` is the identity. -/
def Money.add (a b : Money) : Except DomainError Money :=
  if a.currency ≠ b.currency then .error .valueError
  else .ok ⟨a.cents + b.cents, a.currency⟩

/-- `Money.subtract`: raises `ValueError` on currency mismatch. -/
def Money.subtract (a b : Money) : Except DomainError Money :=
  if a.currency ≠ b.currency then .error .valueError
  else .ok ⟨a.cents - b.cents, a.currency⟩

/-- `Money.multiply` by a scalar: the product is re-quantized half-up by
`__post_init__`. -/
def Money.multiply (a : Money) (k : ℚ) : Money :=
  ⟨halfUpCents (a.amountQ * k), a.currency⟩

/-- `Money.negate`. -/
def Money.negate (a : Money) : Money := ⟨-a.cents, a.currency⟩

/-- `Money.abs`. -/
def Money.abs (a : Money) : Money := ⟨|a.cents|, a.currency⟩

/-- `Money.is_positive`. -/
def Money.is_positive (a : Money) : Bool := 0 < a.cents

/-- `Money.is_negative`. -/
def Money.is_negative (a : Money) : Bool := a.cents < 0

/-- `Money.is_zero`. -/
def Money.is_zero (a : Money) : Bool := a.cents = 0

/-- `Money.__lt__`: raises `ValueError` on currency mismatch. -/
def Money.lt (a b : Money) : Except DomainError Bool :=
  if a.currency ≠ b.currency then .error .valueError
  else .ok (a.cents < b.cents)

/-- `Money.__gt__`: raises `ValueError` on currency mismatch. -/
def Money.gt (a b : Money) : Except DomainError Bool :=
  if a.currency ≠ b.currency then .error .valueError
  else .ok (b.cents < a.cents)

/-- `Money.__le__` is `self == other or self < other`: equality is checked
first (and never raises), then `__lt__` runs only on unequal values. -/
def Money.le (a b : Money) : Except DomainError Bool :=
  if a = b then .ok true else a.lt b

/-- `Money.__ge__` is `self == other or self > other`. -/
def Money.ge (a b : Money) : Except DomainError Bool :=
  if a = b then .ok true else a.gt b

/-- `ClientBalance` (`client_balance.py`): an immutable ledger snapshot. -/
structure ClientBalance where
  current_balance : Money
  credit_limit : Money
  deriving Repr, DecidableEq

/-- The invariant `ClientBalance.__post_init__` establishes: both amounts
share a currency and the credit limit is not negative. -/
def ClientBalance.WF (b : ClientBalance) : Prop :=
  b.current_balance.currency = b.credit_limit.currency ∧ 0 ≤ b.credit_limit.cents

instance (b : ClientBalance) : Decidable b.WF := by
  unfold ClientBalance.WF; infer_instance

/-- `ClientBalance.available_credit`: `credit_limit + current_balance` when
the balance is negative, else the full `credit_limit`. -/
def ClientBalance.available_credit (b : ClientBalance) : Except DomainError Money :=
  if b.current_balance.is_negative then b.credit_limit.add b.current_balance
  else .ok b.credit_limit

/-- `ClientBalance.total_debt`: `abs` of a negative balance, else zero. -/
def ClientBalance.total_debt (b : ClientBalance) : Money :=
  if b.current_balance.is_negative then b.current_balance.abs
  else Money.zero b.current_balance.currency

/-- `ClientBalance.is_in_debt`. -/
def ClientBalance.is_in_debt (b : ClientBalance) : Bool :=
  b.current_balance.is_negative

/-- `ClientBalance.is_credit_exceeded`: debt strictly above the limit. -/
def ClientBalance.is_credit_exceeded (b : ClientBalance) : Except DomainError Bool :=
  if ¬b.current_balance.is_negative then .ok false
  else b.current_balance.abs.gt b.credit_limit

/-- `ClientBalance.can_purchase`: raises on currency mismatch, then projects
`current_balance - amount` and approves when the projection is non-negative
or its absolute value stays within the credit limit. -/
def ClientBalance.can_purchase (b : ClientBalance) (amount : Money) : Except DomainError Bool :=
  if amount.currency ≠ b.current_balance.currency then .error .valueError
  else do
    let projected ← b.current_balance.subtract amount
    if projected.is_positive ∨ projected.is_zero then pure true
    else projected.abs.le b.credit_limit

/-- `ClientBalance.apply_charge`: subtracts the amount, keeping the limit. -/
def ClientBalance.apply_charge (b : ClientBalance) (amount : Money) :
    Except DomainError ClientBalance := do
  let nb ← b.current_balance.subtract amount
  pure ⟨nb, b.credit_limit⟩

/-- `ClientBalance.apply_payment`: adds the amount, keeping the limit. -/
def ClientBalance.apply_payment (b : ClientBalance) (amount : Money) :
    Except DomainError ClientBalance := do
  let nb ← b.current_balance.add amount
  pure ⟨nb, b.credit_limit⟩

/-- `Client` (`entities/client.py` with the `BaseEntity` fields): only the
fields read or written by the operations under verification are carried.
Timestamps are abstract ticks supplied by the caller in place of
`datetime.utcnow()`. -/
structure Client where
  status : String
  balance : ClientBalance
  deleted_at : Option ℕ
  updated_at : ℕ
  deriving Repr, DecidableEq

/-- `BaseEntity.mark_as_deleted`: sets the tombstone timestamp only. -/
def Client.mark_as_deleted (c : Client) (now : ℕ) : Client :=
  { c with deleted_at := some now }

/-- `BaseEntity.is_deleted`. -/
def Client.is_deleted (c : Client) : Bool := c.deleted_at.isSome

/-- `Client.owes_money`. -/
def Client.owes_money (c : Client) : Bool := c.balance.is_in_debt

/-- `Client.can_make_purchase`: `False` for a non-active client, otherwise
defers to the ledger. -/
def Client.can_make_purchase (c : Client) (amount : Money) : Except DomainError Bool :=
  if c.status ≠ "active" then .ok false
  else c.balance.can_purchase amount

/-- `Client.apply_charge`, statement by statement: raise `ValidationError`
when not active; raise `CreditLimitExceededError` when the ledger refuses;
only then replace the balance and bump `updated_at`.  The client state at the
moment of a raise is returned alongside the error. -/
def Client.apply_charge (c : Client) (amount : Money) (now : ℕ) :
    Option DomainError × Client :=
  if c.status ≠ "active" then (some .validationError, c)
  else
    match c.can_make_purchase amount with
    | .error e => (some e, c)
    | .ok allowed =>
      if ¬allowed then (some .creditLimitExceeded, c)
      else
        match c.balance.apply_charge amount with
        | .error e => (some e, c)
        | .ok b2 => (none, { c with balance := b2, updated_at := now })

/-- `Client.apply_payment`: no checks at all; replaces the balance and bumps
`updated_at` (a currency-mismatched amount still raises inside `Money.add`). -/
def Client.apply_payment (c : Client) (amount : Money) (now : ℕ) :
    Option DomainError × Client :=
  match c.balance.apply_payment amount with
  | .error e => (some e, c)
  | .ok b2 => (none, { c with balance := b2, updated_at := now })

/-- `ClientService.delete_client` (`services/client_service.py`): the
service-layer soft delete sets the tombstone and forces the status to
`inactive` (this is the layer, not the entity, that forces the status). -/
def ClientService.delete_client (c : Client) (now : ℕ) : Client :=
  { c with deleted_at := some now, status := "inactive" }

/-- Overwriting assignment into `extra_metadata` (a Python dict write). -/
def setMeta (m : List (String × String)) (k v : String) : List (String × String) :=
  (k, v) :: m.filter (fun p => p.1 ≠ k)

/-- `Transaction` (`entities/transaction.py`): the fields read or written by
the payment-status state machine.  UUIDs and timestamps are abstract numbers
supplied by the caller in place of `datetime.utcnow()`. -/
structure Transaction where
  payment_status : String
  payment_method : Option String
  paid_at : Option ℕ
  cancelled_at : Option ℕ
  cancelled_by : Option ℕ
  extra_metadata : List (String × String)
  updated_at : ℕ
  deriving Repr, DecidableEq

/-- The payment statuses `Transaction.validate` accepts. -/
def validPaymentStatuses : List String :=
  ["pending", "completed", "failed", "cancelled", "refunded"]

/-- `Transaction.is_paid`. -/
def Transaction.is_paid (t : Transaction) : Bool := t.payment_status = "completed"

/-- `Transaction.is_pending`. -/
def Transaction.is_pending (t : Transaction) : Bool := t.payment_status = "pending"

/-- `Transaction.is_cancelled`. -/
def Transaction.is_cancelled (t : Transaction) : Bool := t.payment_status = "cancelled"

/-- `Transaction.mark_as_paid`: raises when already completed or cancelled,
otherwise records method and payment time (defaulting to now). -/
def Transaction.mark_as_paid (t : Transaction) (method : String)
    (paid_at : Option ℕ) (now : ℕ) : Option DomainError × Transaction :=
  if t.is_paid then (some (.invalidStateTransition t.payment_status "completed"), t)
  else if t.is_cancelled then (some (.invalidStateTransition t.payment_status "completed"), t)
  else (none, { t with
    payment_status := "completed"
    payment_method := some method
    paid_at := some (paid_at.getD now)
    updated_at := now })

/-- `Transaction.mark_as_failed`: raises only when already cancelled,
otherwise sets `failed` and stashes the reason. -/
def Transaction.mark_as_failed (t : Transaction) (reason : Option String)
    (now : ℕ) : Option DomainError × Transaction :=
  if t.is_cancelled then (some (.invalidStateTransition t.payment_status "failed"), t)
  else (none, { t with
    payment_status := "failed"
    extra_metadata :=
      match reason with
      | some r => setMeta t.extra_metadata "failure_reason" r
      | none => t.extra_metadata
    updated_at := now })

/-- `Transaction.cancel`: raises when completed or refunded, otherwise sets
`cancelled` and records actor and time. -/
def Transaction.cancel (t : Transaction) (cancelled_by : ℕ)
    (reason : Option String) (now : ℕ) : Option DomainError × Transaction :=
  if t.payment_status = "completed" ∨ t.payment_status = "refunded" then
    (some (.invalidStateTransition t.payment_status "cancelled"), t)
  else (none, { t with
    payment_status := "cancelled"
    cancelled_at := some now
    cancelled_by := some cancelled_by
    extra_metadata :=
      match reason with
      | some r => setMeta t.extra_metadata "cancellation_reason" r
      | none => t.extra_metadata
    updated_at := now })

/-- `Transaction.refund`: raises unless completed, otherwise sets `refunded`. -/
def Transaction.refund (t : Transaction) (reason : Option String)
    (now : ℕ) : Option DomainError × Transaction :=
  if ¬t.is_paid then (some (.invalidStateTransition t.payment_status "refunded"), t)
  else (none, { t with
    payment_status := "refunded"
    extra_metadata :=
      match reason with
      | some r => setMeta t.extra_metadata "refund_reason" r
      | none => t.extra_metadata
    updated_at := now })

/-- One call to one of the four state-machine methods, with its arguments. -/
inductive TxOp where
  | markAsPaid (method : String) (paid_at : Option ℕ)
  | markAsFailed (reason : Option String)
  | cancelTx (actor : ℕ) (reason : Option String)
  | refundTx (reason : Option String)
  deriving Repr, DecidableEq

/-- Dispatch one state-machine call on a transaction. -/
def Transaction.applyOp (t : Transaction) (op : TxOp) (now : ℕ) :
    Option DomainError × Transaction :=
  match op with
  | .markAsPaid method paid_at => t.mark_as_paid method paid_at now
  | .markAsFailed reason => t.mark_as_failed reason now
  | .cancelTx actor reason => t.cancel actor reason now
  | .refundTx reason => t.refund reason now

/-- `ClientValidator.recommend_credit_limit` (`client_validator.py`):
30% of the purchase history, raised to the current debt when the client owes
money and the figure is below it, then capped at ten times the current limit
— but only when `credit_limit.amount > 0`. -/
def ClientValidator.recommend_credit_limit (c : Client) (purchase_history_total : Money) :
    Except DomainError Money := do
  let recommended := purchase_history_total.multiply (3 / 10)
  let recommended ←
    if c.owes_money then do
      let minimum := c.balance.total_debt
      let below ← recommended.lt minimum
      if below then pure minimum else pure recommended
    else pure recommended
  if 0 < c.balance.credit_limit.cents then do
    let maximum := c.balance.credit_limit.multiply 10
    let above ← recommended.gt maximum
    if above then pure maximum else pure recommended
  else pure recommended

/-- Decimal digits, most significant first, with explicit fuel so that the
recursion is structural; any fuel above the input gives the same digits. -/
def natDigitsF : ℕ → ℕ → List Char
  | 0, _ => []
  | fuel + 1, n =>
    if n < 10 then [Char.ofNat (48 + n)]
    else natDigitsF fuel (n / 10) ++ [Char.ofNat (48 + n % 10)]

/-- Decimal digits of a natural number, most significant first (the
characters of Python `str(n)` for a non-negative `n`). -/
def natDigits (n : ℕ) : List Char := natDigitsF (n + 1) n

/-- Python `str.zfill(width)` on a digit string: pad on the left with
zeros up to `width` (digit strings produced here carry no sign). -/
def zfill (width : ℕ) (l : List Char) : List Char :=
  List.replicate (width - l.length) '0' ++ l

/-- Python `int(s)` restricted to the plain decimal digit strings this
service produces and consumes: `none` models the `ValueError` on an empty or
non-numeric segment. -/
def pyInt (l : List Char) : Option ℕ :=
  if l ≠ [] ∧ l.all Char.isDigit then
    some (l.foldl (fun acc ch => 10 * acc + (ch.toNat - 48)) 0)
  else none

/-- Python `str.split("-")` on a character list (keeps empty segments). -/
def splitDash : List Char → List (List Char)
  | [] => [[]]
  | ch :: rest =>
    if ch = '-' then [] :: splitDash rest
    else
      match splitDash rest with
      | [] => [[ch]]
      | g :: gs => (ch :: g) :: gs

/-- A Python `datetime.date`; `valid` mirrors the constructor's checks. -/
structure PyDate where
  year : ℕ
  month : ℕ
  day : ℕ
  deriving Repr, DecidableEq

/-- Gregorian leap year, as `calendar.isleap`. -/
def isLeapYear (y : ℕ) : Bool := (y % 4 = 0 ∧ y % 100 ≠ 0) ∨ y % 400 = 0

/-- Days in a month of the proleptic Gregorian calendar. -/
def daysInMonth (y m : ℕ) : ℕ :=
  if m = 2 then (if isLeapYear y then 29 else 28)
  else if m = 4 ∨ m = 6 ∨ m = 9 ∨ m = 11 then 30
  else 31

/-- The ranges `datetime.date(y, m, d)` accepts (`MINYEAR = 1`,
`MAXYEAR = 9999`). -/
def PyDate.valid (d : PyDate) : Bool :=
  1 ≤ d.year ∧ d.year ≤ 9999 ∧ 1 ≤ d.month ∧ d.month ≤ 12 ∧
    1 ≤ d.day ∧ d.day ≤ daysInMonth d.year d.month

/-- `date.strftime("%Y%m%d")` as CPython evaluates it on glibc: month and
day are zero-padded to two digits, the year is printed without padding (so a
year below 1000 yields fewer than four digits). -/
def PyDate.strftimeYmd (d : PyDate) : List Char :=
  natDigits d.year ++ zfill 2 (natDigits d.month) ++ zfill 2 (natDigits d.day)

/-- `TransactionNumberGenerator.PREFIX_MAP`. -/
def PREFIX_MAP : List (String × String) :=
  [("invoice", "INV"), ("payment", "PAY"), ("credit_note", "CN"), ("debit_note", "DN")]

/-- `TransactionNumberGenerator.generate`: raises on an unknown type, then
joins prefix, `%Y%m%d` date and the zero-filled sequence with dashes.  The
date is the explicitly supplied one (the source only defaults to `today()`
when none is given). -/
def TransactionNumberGenerator.generate (transaction_type : String) (sequence : ℕ)
    (transaction_date : PyDate) : Except DomainError (List Char) :=
  match PREFIX_MAP.lookup transaction_type with
  | none => .error .valueError
  | some pre =>
    .ok (pre.toList ++ '-' :: transaction_date.strftimeYmd ++ '-' :: zfill 4 (natDigits sequence))

/-- The dictionary `TransactionNumberGenerator.parse` returns. -/
structure ParsedNumber where
  transaction_type : Option String
  date : PyDate
  sequence : ℕ
  pfx : String
  deriving Repr, DecidableEq

/-- `TransactionNumberGenerator.parse`: split on `-`; demand exactly three
segments and a known second-map value; read the date from slices `[0:4]`,
`[4:6]`, `[6:8]` of the middle segment (extra characters beyond index 8 are
silently ignored, shorter segments are silently truncated by the slicing);
build the `date` (raising on an invalid one); read the sequence. -/
def TransactionNumberGenerator.parse (transaction_number : List Char) :
    Except DomainError ParsedNumber :=
  match splitDash transaction_number with
  | [p, dateStr, seqStr] =>
    let pStr := String.mk p
    if ¬(PREFIX_MAP.map Prod.snd).contains pStr then .error .valueError
    else
      match pyInt (dateStr.take 4), pyInt ((dateStr.drop 4).take 2),
          pyInt ((dateStr.drop 6).take 2) with
      | some y, some mo, some da =>
        if (PyDate.mk y mo da).valid then
          match pyInt seqStr with
          | some s =>
            .ok ⟨(PREFIX_MAP.find? (fun q => q.2 = pStr)).map Prod.fst, ⟨y, mo, da⟩, s, pStr⟩
          | none => .error .valueError
        else .error .valueError
      | _, _, _ => .error .valueError
  | _ => .error .valueError

/-- One ledger call: `ClientBalance.apply_charge` or `apply_payment`. -/
inductive LedgerOp where
  | charge (amount : Money)
  | payment (amount : Money)
  deriving Repr, DecidableEq

/-- The `Money` argument of a ledger call. -/
def LedgerOp.amount : LedgerOp → Money
  | .charge a => a
  | .payment a => a

/-- Run a sequence of ledger calls left to right, propagating any raise. -/
def ClientBalance.applyOps (b : ClientBalance) : List LedgerOp → Except DomainError ClientBalance
  | [] => .ok b
  | op :: rest => do
    let b2 ← match op with
      | .charge a => b.apply_charge a
      | .payment a => b.apply_payment a
    b2.applyOps rest

/-- The signed cent total of a ledger sequence: payments count positively,
charges negatively. -/
def ledgerDelta : List LedgerOp → ℤ
  | [] => 0
  | .charge a :: rest => -a.cents + ledgerDelta rest
  | .payment a :: rest => a.cents + ledgerDelta rest

/-- The status pairs `(before, after)`, `before ≠ after`, that one call to
`mark_as_paid`, `mark_as_failed`, `cancel` or `refund` can realize. -/
def allowedTransitions : List (String × String) :=
  [("pending", "completed"), ("pending", "failed"), ("pending", "cancelled"),
   ("failed", "completed"), ("failed", "cancelled"),
   ("completed", "refunded"), ("completed", "failed"),
   ("refunded", "completed"), ("refunded", "failed")]

/-- Spec-side characterization, stated independently of `halfUpCents`:
`stored` is the half-up rounding of `input` to two decimal places —
`stored` has at most two decimal digits, lies within half a cent of
`input`, and on an exact half-cent tie is the candidate away from zero. -/
def SpecHalfUp2 (input stored : ℚ) : Prop :=
  (∃ n : ℤ, stored * 100 = n) ∧ |input - stored| ≤ 1 / 200 ∧
    (|input - stored| = 1 / 200 → |stored| = |input| + 1 / 200)

/-- Decidable equality of `Except` results, for evaluating the embedding at
concrete inputs. -/
instance {e a : Type} [DecidableEq e] [DecidableEq a] : DecidableEq (Except e a) := fun x y =>
  match x, y with
  | .ok u, .ok v =>
    if h : u = v then .isTrue (by rw [h]) else .isFalse (fun hh => h (Except.ok.inj hh))
  | .error u, .error v =>
    if h : u = v then .isTrue (by rw [h]) else .isFalse (fun hh => h (Except.error.inj hh))
  | .ok _, .error _ => .isFalse (fun hh => Except.noConfusion hh)
  | .error _, .ok _ => .isFalse (fun hh => Except.noConfusion hh)

/-- Reduction of a successful `Except` bind (shared by the proofs below). -/
theorem Except.ok_bind {e a b : Type} (x : a) (f : a → Except e b) :
    (Except.ok (ε := e) x >>= f) = f x := rfl

/-- C7 counterexample: on an active client, the entity deletion operation
`mark_as_deleted` sets the tombstone but leaves the status `"active"`, not
`"inactive"`, contradicting the claim that deletion forces the status. -/
theorem c7_counterexample :
    (Client.mark_as_deleted ⟨"active", ⟨⟨0, "ARS"⟩, ⟨0, "ARS"⟩⟩, none, 0⟩ 7).is_deleted = true ∧
    (Client.mark_as_deleted ⟨"active", ⟨⟨0, "ARS"⟩, ⟨0, "ARS"⟩⟩, none, 0⟩ 7).status = "active" ∧
    ("active" : String) ≠ "inactive" := by
  decide

/-- C7 (amended): the entity operation `mark_as_deleted` sets `deleted_at`
(so `is_deleted` becomes true) and leaves the status untouched; the status
is forced to `"inactive"` only by the service-layer soft delete
`ClientService.delete_client`, which sets both. -/
theorem c7_soft_delete :
    ∀ (c : Client) (now : ℕ),
    (c.mark_as_deleted now).deleted_at = some now ∧
    (c.mark_as_deleted now).is_deleted = true ∧
    (c.mark_as_deleted now).status = c.status ∧
    (ClientService.delete_client c now).is_deleted = true ∧
    (ClientService.delete_client c now).status = "inactive" := by
  intro c now
  simp [Client.mark_as_deleted, Client.is_deleted, ClientService.delete_client]

/-- C4: for every transaction, `mark_as_paid` raises exactly when the status
is completed or cancelled and otherwise sets completed; `mark_as_failed`
raises exactly when cancelled and otherwise sets failed; `refund` raises
exactly when not completed and otherwise sets refunded; `cancel` raises
exactly when completed or refunded and otherwise sets cancelled. -/
theorem c4_transaction_method_guards :
    ∀ (t : Transaction) (method : String) (pa : Option ℕ) (reason : Option String)
      (actor now : ℕ),
    ((t.mark_as_paid method pa now).1.isSome ↔
      t.payment_status = "completed" ∨ t.payment_status = "cancelled") ∧
    ((t.mark_as_paid method pa now).1 = none →
      (t.mark_as_paid method pa now).2.payment_status = "completed") ∧
    ((t.mark_as_failed reason now).1.isSome ↔ t.payment_status = "cancelled") ∧
    ((t.mark_as_failed reason now).1 = none →
      (t.mark_as_failed reason now).2.payment_status = "failed") ∧
    ((t.refund reason now).1.isSome ↔ ¬t.payment_status = "completed") ∧
    ((t.refund reason now).1 = none →
      (t.refund reason now).2.payment_status = "refunded") ∧
    ((t.cancel actor reason now).1.isSome ↔
      t.payment_status = "completed" ∨ t.payment_status = "refunded") ∧
    ((t.cancel actor reason now).1 = none →
      (t.cancel actor reason now).2.payment_status = "cancelled") := by
  intro t method pa reason actor now
  refine ⟨?_, ?_, ?_, ?_, ?_, ?_, ?_, ?_⟩ <;>
    simp only [Transaction.mark_as_paid, Transaction.mark_as_failed, Transaction.refund,
      Transaction.cancel, Transaction.is_paid, Transaction.is_cancelled] <;>
    split_ifs <;> simp_all

/-- C2 counterexample: `mark_as_failed` on a completed transaction succeeds
and moves the status to `"failed"`, so a completed transaction can move to a
status other than `"refunded"` and the claimed transition set is wrong. -/
theorem c2_counterexample :
    (Transaction.mark_as_failed ⟨"completed", none, none, none, none, [], 0⟩ none 5).1 = none ∧
    (Transaction.mark_as_failed ⟨"completed", none, none, none, none, [], 0⟩ none 5).2.payment_status
      = "failed" ∧
    ("failed" : String) ≠ "refunded" := by
  decide

/-- C2 (amended): over valid statuses, one call to any of the four methods
either leaves the status unchanged or realizes one of the transitions
pending→{completed, failed, cancelled}, failed→{completed, cancelled},
completed→{refunded, failed}, refunded→{completed, failed}; `cancelled` is
the only terminal status (`refunded` is not: `mark_as_paid` and
`mark_as_failed` both move it, and `mark_as_failed` moves `completed`). -/
theorem c2_status_step :
    ∀ (t : Transaction) (op : TxOp) (now : ℕ),
    t.payment_status ∈ validPaymentStatuses →
    ((t.applyOp op now).2.payment_status = t.payment_status ∨
      (t.payment_status, (t.applyOp op now).2.payment_status) ∈ allowedTransitions) ∧
    (t.payment_status = "cancelled" → (t.applyOp op now).2.payment_status = "cancelled") := by
  intro t op now h
  simp only [validPaymentStatuses, List.mem_cons, List.not_mem_nil, or_false] at h
  rcases op with ⟨method, pa⟩ | ⟨reason⟩ | ⟨actor, reason⟩ | ⟨reason⟩ <;>
    rcases h with h | h | h | h | h <;>
    simp [Transaction.applyOp, Transaction.mark_as_paid, Transaction.mark_as_failed,
      Transaction.cancel, Transaction.refund, Transaction.is_paid, Transaction.is_cancelled,
      allowedTransitions, h]

/-- C2 witness: the amended step theorem applied to a concrete pending
transaction being marked as paid. -/
theorem c2_status_step_witness :
    (Transaction.mk "pending" none none none none [] 0).payment_status ∈ validPaymentStatuses ∧
    (((Transaction.mk "pending" none none none none [] 0).applyOp (.markAsPaid "cash" none) 3).2.payment_status
        = (Transaction.mk "pending" none none none none [] 0).payment_status ∨
      ((Transaction.mk "pending" none none none none [] 0).payment_status,
        ((Transaction.mk "pending" none none none none [] 0).applyOp (.markAsPaid "cash" none) 3).2.payment_status)
        ∈ allowedTransitions) :=
  ⟨by decide, (c2_status_step (Transaction.mk "pending" none none none none [] 0)
    (.markAsPaid "cash" none) 3 (by decide)).1⟩

/-- C3: with credit limit 5000.00 and balance 0, a charge of exactly 5000.00
succeeds and leaves the balance at -5000.00; a charge of 5001.00 raises
`CreditLimitExceededError` and returns the client bit-for-bit unchanged; and
in general a failing `Client.apply_charge` never mutates the client, because
every raise precedes the balance assignment. -/
theorem c3_credit_limit_enforcement :
    (∀ (c : Client) (amount : Money) (now : ℕ) (e : DomainError),
      (c.apply_charge amount now).1 = some e → (c.apply_charge amount now).2 = c) ∧
    (Client.apply_charge ⟨"active", ⟨⟨0, "ARS"⟩, ⟨500000, "ARS"⟩⟩, none, 0⟩ ⟨500000, "ARS"⟩ 1).1
      = none ∧
    (Client.apply_charge ⟨"active", ⟨⟨0, "ARS"⟩, ⟨500000, "ARS"⟩⟩, none, 0⟩ ⟨500000, "ARS"⟩ 1).2.balance
      = ⟨⟨-500000, "ARS"⟩, ⟨500000, "ARS"⟩⟩ ∧
    (Client.apply_charge ⟨"active", ⟨⟨0, "ARS"⟩, ⟨500000, "ARS"⟩⟩, none, 0⟩ ⟨500100, "ARS"⟩ 1).1
      = some .creditLimitExceeded ∧
    (Client.apply_charge ⟨"active", ⟨⟨0, "ARS"⟩, ⟨500000, "ARS"⟩⟩, none, 0⟩ ⟨500100, "ARS"⟩ 1).2
      = ⟨"active", ⟨⟨0, "ARS"⟩, ⟨500000, "ARS"⟩⟩, none, 0⟩ := by
  refine ⟨?_, by decide, by decide, by decide, by decide⟩
  intro c amount now e h
  unfold Client.apply_charge at h ⊢
  split_ifs at h ⊢ with h1
  · rfl
  · cases hm : c.can_make_purchase amount with
    | error e2 => simp [hm]
    | ok allowed =>
      simp only [hm] at h ⊢
      by_cases ha : allowed
      · simp only [ha, not_true, if_neg, ite_false] at h ⊢
        cases hb : c.balance.apply_charge amount with
        | error e3 => simp [hb]
        | ok b2 => simp [hb] at h
      · simp [ha]

/-- C3 witness: the atomicity part of the theorem applied to the concrete
failing charge of 5001.00. -/
theorem c3_credit_limit_enforcement_witness :
    (Client.apply_charge ⟨"active", ⟨⟨0, "ARS"⟩, ⟨500000, "ARS"⟩⟩, none, 0⟩ ⟨500100, "ARS"⟩ 1).2
      = ⟨"active", ⟨⟨0, "ARS"⟩, ⟨500000, "ARS"⟩⟩, none, 0⟩ :=
  c3_credit_limit_enforcement.1 ⟨"active", ⟨⟨0, "ARS"⟩, ⟨500000, "ARS"⟩⟩, none, 0⟩
    ⟨500100, "ARS"⟩ 1 .creditLimitExceeded (by decide)


/-- C10 counterexample: for the over-limit balance (current -3.00, limit
1.00), the negative amount -1.00 is rejected: `can_purchase` returns false
and `Client.apply_charge` on an active, non-deleted client with that balance
raises `CreditLimitExceededError` instead of succeeding. -/
theorem c10_counterexample :
    (Money.is_negative ⟨-100, "ARS"⟩) = true ∧
    ClientBalance.can_purchase ⟨⟨-300, "ARS"⟩, ⟨100, "ARS"⟩⟩ ⟨-100, "ARS"⟩ = .ok false ∧
    (Client.apply_charge ⟨"active", ⟨⟨-300, "ARS"⟩, ⟨100, "ARS"⟩⟩, none, 0⟩ ⟨-100, "ARS"⟩ 1).1
      = some .creditLimitExceeded ∧
    (Client.is_deleted ⟨"active", ⟨⟨-300, "ARS"⟩, ⟨100, "ARS"⟩⟩, none, 0⟩) = false := by
  decide

/-- C10 (amended): no operation validates the sign of an amount, but a
negative charge is approved only when the ledger is not already over its
limit: for every balance with debt within the credit limit and every
negative same-currency amount, `can_purchase` returns true, an active
client's `apply_charge` succeeds and raises `current_balance` by the
absolute value of the amount, and `apply_payment` accepts any same-currency
amount unconditionally, moving the balance by it (downward when negative). -/
theorem c10_negative_amounts :
    (∀ (b : ClientBalance) (a : Money),
      a.currency = b.current_balance.currency →
      b.current_balance.currency = b.credit_limit.currency →
      a.cents < 0 →
      -b.current_balance.cents ≤ b.credit_limit.cents →
      b.can_purchase a = .ok true) ∧
    (∀ (c : Client) (a : Money) (now : ℕ),
      c.status = "active" →
      a.currency = c.balance.current_balance.currency →
      c.balance.current_balance.currency = c.balance.credit_limit.currency →
      a.cents < 0 →
      -c.balance.current_balance.cents ≤ c.balance.credit_limit.cents →
      (c.apply_charge a now).1 = none ∧
        (c.apply_charge a now).2.balance.current_balance.cents
          = c.balance.current_balance.cents + |a.cents|) ∧
    (∀ (c : Client) (a : Money) (now : ℕ),
      a.currency = c.balance.current_balance.currency →
      (c.apply_payment a now).1 = none ∧
        (c.apply_payment a now).2.balance.current_balance.cents
          = c.balance.current_balance.cents + a.cents) := by
  have hcp : ∀ (b : ClientBalance) (a : Money),
      a.currency = b.current_balance.currency →
      b.current_balance.currency = b.credit_limit.currency →
      a.cents < 0 →
      -b.current_balance.cents ≤ b.credit_limit.cents →
      b.can_purchase a = .ok true := by
    intro b a hca hcc hneg hlim
    simp only [ClientBalance.can_purchase, Money.subtract, hca, ne_eq, not_true_eq_false,
      if_false, ite_not, Money.is_positive, Money.is_zero, Money.abs, Money.le, Money.lt,
      Except.ok_bind, decide_eq_true_eq]
    split_ifs with hpos heq
    · rfl
    · rfl
    · have hp : b.current_balance.cents - a.cents < 0 := by
        push_neg at hpos
        omega
      simp only [Except.ok.injEq, decide_eq_true_eq]
      rw [abs_of_neg hp]
      omega
  refine ⟨hcp, ?_, ?_⟩
  · intro c a now hst hca hcc hneg hlim
    have h1 : c.can_make_purchase a = .ok true := by
      simp [Client.can_make_purchase, hst, hcp c.balance a hca hcc hneg hlim]
    have h2 : c.balance.apply_charge a
        = .ok ⟨⟨c.balance.current_balance.cents - a.cents, c.balance.current_balance.currency⟩,
            c.balance.credit_limit⟩ := by
      simp [ClientBalance.apply_charge, Money.subtract, hca, Except.ok_bind]
    simp only [Client.apply_charge, hst, ne_eq, not_true_eq_false, if_false, ite_not, h1, h2]
    constructor
    · trivial
    · rw [abs_of_neg hneg]
      omega
  · intro c a now hca
    have h2 : c.balance.apply_payment a
        = .ok ⟨⟨c.balance.current_balance.cents + a.cents, c.balance.current_balance.currency⟩,
            c.balance.credit_limit⟩ := by
      simp [ClientBalance.apply_payment, Money.add, hca, Except.ok_bind]
    simp [Client.apply_payment, h2]

/-- C10 witness: the amended theorem applied to a within-limit balance and
the concrete negative charge and payment -1.00. -/
theorem c10_negative_amounts_witness :
    ClientBalance.can_purchase ⟨⟨-100, "ARS"⟩, ⟨200, "ARS"⟩⟩ ⟨-100, "ARS"⟩ = .ok true ∧
    ((Client.mk "active" ⟨⟨-100, "ARS"⟩, ⟨200, "ARS"⟩⟩ none 0).apply_payment ⟨-100, "ARS"⟩ 1).2.balance.current_balance.cents
      = -200 :=
  ⟨c10_negative_amounts.1 ⟨⟨-100, "ARS"⟩, ⟨200, "ARS"⟩⟩ ⟨-100, "ARS"⟩ rfl rfl (by decide)
      (by decide),
    ((c10_negative_amounts.2.2 (Client.mk "active" ⟨⟨-100, "ARS"⟩, ⟨200, "ARS"⟩⟩ none 0)
      ⟨-100, "ARS"⟩ 1 rfl).2)⟩

/-- C1: running any sequence of `apply_charge`/`apply_payment` calls whose
amounts are in the balance's currency yields the initial balance plus the
payments minus the charges, with the credit limit untouched; and on every
well-formed ledger snapshot `available_credit` is
`credit_limit + min(current_balance, 0)`. -/
theorem c1_ledger_invariant :
    (∀ (b : ClientBalance) (ops : List LedgerOp),
      (∀ op ∈ ops, (LedgerOp.amount op).currency = b.current_balance.currency) →
      b.applyOps ops
        = .ok ⟨⟨b.current_balance.cents + ledgerDelta ops, b.current_balance.currency⟩,
            b.credit_limit⟩) ∧
    (∀ b : ClientBalance, b.WF →
      b.available_credit
        = .ok ⟨b.credit_limit.cents + min b.current_balance.cents 0, b.credit_limit.currency⟩) := by
  constructor
  · intro b ops
    induction ops generalizing b with
    | nil =>
      intro _
      obtain ⟨⟨bc, bcur⟩, bl⟩ := b
      simp [ClientBalance.applyOps, ledgerDelta]
    | cons op rest ih =>
      intro h
      have hrest : ∀ o ∈ rest, (LedgerOp.amount o).currency = b.current_balance.currency := by
        intro o ho
        exact h o (by simp [ho])
      cases op with
      | charge a =>
        have ha : a.currency = b.current_balance.currency := h (.charge a) (by simp)
        have hstep : b.apply_charge a
            = .ok ⟨⟨b.current_balance.cents - a.cents, b.current_balance.currency⟩,
                b.credit_limit⟩ := by
          simp [ClientBalance.apply_charge, Money.subtract, ha, Except.ok_bind]
        have hr := ih ⟨⟨b.current_balance.cents - a.cents, b.current_balance.currency⟩,
          b.credit_limit⟩ (by intro o ho; exact hrest o ho)
        simp only [ClientBalance.applyOps, hstep, Except.ok_bind, hr, ledgerDelta,
          Except.ok.injEq, ClientBalance.mk.injEq, Money.mk.injEq]
        refine ⟨⟨by omega, ?_⟩, ?_⟩ <;> trivial
      | payment a =>
        have ha : a.currency = b.current_balance.currency := h (.payment a) (by simp)
        have hstep : b.apply_payment a
            = .ok ⟨⟨b.current_balance.cents + a.cents, b.current_balance.currency⟩,
                b.credit_limit⟩ := by
          simp [ClientBalance.apply_payment, Money.add, ha, Except.ok_bind]
        have hr := ih ⟨⟨b.current_balance.cents + a.cents, b.current_balance.currency⟩,
          b.credit_limit⟩ (by intro o ho; exact hrest o ho)
        simp only [ClientBalance.applyOps, hstep, Except.ok_bind, hr, ledgerDelta,
          Except.ok.injEq, ClientBalance.mk.injEq, Money.mk.injEq]
        refine ⟨⟨by omega, ?_⟩, ?_⟩ <;> trivial
  · intro b hwf
    obtain ⟨hcur, hlim⟩ := hwf
    by_cases hneg : b.current_balance.cents < 0
    · have hmin : min b.current_balance.cents 0 = b.current_balance.cents := by omega
      simp [ClientBalance.available_credit, Money.is_negative, hneg, Money.add, hcur, hmin]
    · have hmin : min b.current_balance.cents 0 = 0 := by omega
      simp [ClientBalance.available_credit, Money.is_negative, hneg, hmin]

/-- C1 witness: the invariant applied to a concrete balance, a concrete
charge-then-payment sequence, and a concrete indebted snapshot. -/
theorem c1_ledger_invariant_witness :
    ClientBalance.applyOps ⟨⟨1000, "ARS"⟩, ⟨5000, "ARS"⟩⟩
        [.charge ⟨300, "ARS"⟩, .payment ⟨200, "ARS"⟩]
      = .ok ⟨⟨900, "ARS"⟩, ⟨5000, "ARS"⟩⟩ ∧
    ClientBalance.available_credit ⟨⟨-200, "ARS"⟩, ⟨5000, "ARS"⟩⟩ = .ok ⟨4800, "ARS"⟩ := by
  constructor
  · have h := c1_ledger_invariant.1 ⟨⟨1000, "ARS"⟩, ⟨5000, "ARS"⟩⟩
      [.charge ⟨300, "ARS"⟩, .payment ⟨200, "ARS"⟩] (by decide)
    simpa using h
  · have h := c1_ledger_invariant.2 ⟨⟨-200, "ARS"⟩, ⟨5000, "ARS"⟩⟩ ⟨rfl, by decide⟩
    simpa using h

/-- `halfUpCents` lands within half a cent of the input. -/
theorem halfUpCents_close (q : ℚ) : |q - (halfUpCents q : ℚ) / 100| ≤ 1 / 200 := by
  unfold halfUpCents
  by_cases hq : 0 ≤ q
  · simp only [hq, if_true]
    have h1 : ((⌊100 * q + 1 / 2⌋ : ℤ) : ℚ) ≤ 100 * q + 1 / 2 := Int.floor_le _
    have h2 : 100 * q + 1 / 2 < (⌊100 * q + 1 / 2⌋ : ℤ) + 1 := Int.lt_floor_add_one _
    rw [abs_le]
    constructor <;> linarith
  · simp only [hq, if_false]
    have h1 : ((⌊100 * (-q) + 1 / 2⌋ : ℤ) : ℚ) ≤ 100 * (-q) + 1 / 2 := Int.floor_le _
    have h2 : 100 * (-q) + 1 / 2 < (⌊100 * (-q) + 1 / 2⌋ : ℤ) + 1 := Int.lt_floor_add_one _
    rw [abs_le]
    push_cast
    constructor <;> linarith

/-- On an exact half-cent tie, `halfUpCents` picks the candidate away from
zero. -/
theorem halfUpCents_tie (q : ℚ) (h : |q - (halfUpCents q : ℚ) / 100| = 1 / 200) :
    |(halfUpCents q : ℚ) / 100| = |q| + 1 / 200 := by
  unfold halfUpCents at h ⊢
  by_cases hq : 0 ≤ q
  · simp only [hq, if_true] at h ⊢
    have h2 : 100 * q + 1 / 2 < (⌊100 * q + 1 / 2⌋ : ℤ) + 1 := Int.lt_floor_add_one _
    have hlt : q - ((⌊100 * q + 1 / 2⌋ : ℤ) : ℚ) / 100 < 1 / 200 := by linarith
    have heq : q - ((⌊100 * q + 1 / 2⌋ : ℤ) : ℚ) / 100 = -(1 / 200) := by
      rcases (abs_eq (by norm_num : (0 : ℚ) ≤ 1 / 200)).mp h with h3 | h3
      · exact absurd h3 (ne_of_lt hlt)
      · exact h3
    have hst : ((⌊100 * q + 1 / 2⌋ : ℤ) : ℚ) / 100 = q + 1 / 200 := by linarith
    rw [hst, abs_of_nonneg hq, abs_of_nonneg (by linarith : (0 : ℚ) ≤ q + 1 / 200)]
  · push_neg at hq
    simp only [not_le.mpr hq, if_false] at h ⊢
    have h2 : 100 * (-q) + 1 / 2 < (⌊100 * (-q) + 1 / 2⌋ : ℤ) + 1 := Int.lt_floor_add_one _
    have hgt : -(1 / 200) < q - ((-⌊100 * (-q) + 1 / 2⌋ : ℤ) : ℚ) / 100 := by
      push_cast
      linarith
    have heq : q - ((-⌊100 * (-q) + 1 / 2⌋ : ℤ) : ℚ) / 100 = 1 / 200 := by
      rcases (abs_eq (by norm_num : (0 : ℚ) ≤ 1 / 200)).mp h with h3 | h3
      · exact h3
      · exact absurd h3 (by push_cast at hgt ⊢; intro hc; linarith)
    have hst : ((-⌊100 * (-q) + 1 / 2⌋ : ℤ) : ℚ) / 100 = q - 1 / 200 := by
      push_cast at heq ⊢
      linarith
    rw [hst, abs_of_neg hq, abs_of_neg (by linarith : q - 1 / 200 < 0)]
    ring

/-- C5: every amount accepted by the `Money` constructor is stored with at
most two decimal digits, as the half-up rounding of the input (nearest cent,
ties away from zero); the operations are pure functions on immutable values,
so no operation mutates an existing `Money`. -/
theorem c5_money_rounding :
    ∀ (q : ℚ) (c : String) (m : Money),
    Money.create q c = .ok m → SpecHalfUp2 q m.amountQ := by
  intro q c m hm
  have hc : m.cents = halfUpCents q := by
    unfold Money.create Money.ofAmount at hm
    by_cases hl : (pyUpper c).length ≠ 3
    · rw [if_pos hl] at hm
      exact Except.noConfusion hm
    · rw [if_neg hl] at hm
      have h2 := Except.ok.inj hm
      rw [← h2]
  have hs : m.amountQ = (halfUpCents q : ℚ) / 100 := by rw [Money.amountQ, hc]
  rw [hs]
  exact ⟨⟨halfUpCents q, by field_simp⟩, halfUpCents_close q, halfUpCents_tie q⟩

/-- Evaluation rule for `halfUpCents` on a non-negative amount, used to
evaluate the embedding at concrete rational inputs. -/
theorem halfUpCents_eq_of_nonneg (q : ℚ) (n : ℤ) (h0 : 0 ≤ q)
    (h1 : (n : ℚ) ≤ 100 * q + 1 / 2) (h2 : 100 * q + 1 / 2 < n + 1) :
    halfUpCents q = n := by
  unfold halfUpCents
  rw [if_pos h0]
  exact Int.floor_eq_iff.mpr ⟨h1, by linarith⟩

/-- C5 witness: constructing from 100.999 stores exactly 101.00, and the
rounding characterization holds there. -/
theorem c5_money_rounding_witness :
    Money.create (100999 / 1000) "ARS" = .ok ⟨10100, "ARS"⟩ ∧
    SpecHalfUp2 (100999 / 1000) (Money.amountQ ⟨10100, "ARS"⟩) := by
  have hv : Money.create (100999 / 1000) "ARS" = .ok ⟨10100, "ARS"⟩ := by
    unfold Money.create Money.ofAmount
    rw [show pyUpper "ARS" = "ARS" from rfl,
      halfUpCents_eq_of_nonneg (100999 / 1000) 10100 (by norm_num) (by norm_num) (by norm_num)]
    rfl
  exact ⟨hv, c5_money_rounding (100999 / 1000) "ARS" ⟨10100, "ARS"⟩ hv⟩

/-- C8 counterexample: the currency check counts characters only, so the
non-alphabetic three-character string "123" is accepted by `Money.create`
(and the raise, when it happens, is a plain `ValueError`). -/
theorem c8_counterexample :
    Money.create 0 "123" = .ok ⟨0, "123"⟩ ∧
    ¬("123".data.all Char.isAlpha = true) := by
  constructor
  · unfold Money.create Money.ofAmount
    rw [show pyUpper "123" = "123" from rfl,
      halfUpCents_eq_of_nonneg 0 0 (by norm_num) (by norm_num) (by norm_num)]
    rfl
  · decide

/-- C8 (amended): `Money.create` fails — with a plain `ValueError`, not
`ValidationError` — exactly when the upper-cased currency does not have
length 3; any three-character string (alphabetic or not) is accepted,
upper-cased, with the amount rounded. -/
theorem c8_currency_check :
    ∀ (q : ℚ) (c : String),
    ((∃ e, Money.create q c = .error e) ↔ (pyUpper c).length ≠ 3) ∧
    ((pyUpper c).length = 3 → Money.create q c = .ok ⟨halfUpCents q, pyUpper c⟩) := by
  intro q c
  unfold Money.create Money.ofAmount
  by_cases hl : (pyUpper c).length = 3
  · simp [hl]
  · simp [hl]

/-- C8 witness: the amended characterization applied to the lower-case
three-letter code "usd". -/
theorem c8_currency_check_witness :
    Money.create 0 "usd" = .ok ⟨0, "USD"⟩ := by
  have h := (c8_currency_check 0 "usd").2 (by decide)
  rw [show pyUpper "usd" = "USD" from rfl,
    halfUpCents_eq_of_nonneg 0 0 (by norm_num) (by norm_num) (by norm_num)] at h
  exact h

/-- Reduction of `pure` in the `Except` monad (shared by the proofs below). -/
theorem Except.pure_eq {e a : Type} (x : a) : (pure x : Except e a) = .ok x := rfl

/-- `halfUpCents` is the identity on amounts that are already an exact
number of cents. -/
theorem halfUpCents_cents (n : ℤ) : halfUpCents ((n : ℚ) / 100) = n := by
  unfold halfUpCents
  by_cases h : (0 : ℤ) ≤ n
  · rw [if_pos (by positivity)]
    rw [show 100 * ((n : ℚ) / 100) + 1 / 2 = (n : ℚ) + 1 / 2 by field_simp]
    rw [Int.floor_eq_iff]
    constructor
    · linarith
    · linarith
  · have hn : (n : ℚ) / 100 < 0 := by
      have : (n : ℚ) < 0 := by exact_mod_cast not_le.mp h
      linarith
    rw [if_neg (by linarith)]
    rw [show 100 * (-((n : ℚ) / 100)) + 1 / 2 = (-n : ℤ) + 1 / 2 by push_cast; ring_nf]
    rw [show (⌊((-n : ℤ) : ℚ) + 1 / 2⌋ : ℤ) = -n from
      Int.floor_eq_iff.mpr ⟨by norm_num, by push_cast; linarith⟩]
    ring

/-- Multiplying a `Money` by the exact scalar 10 multiplies its cents by 10
(the re-quantization is the identity). -/
theorem money_multiply_ten (m : Money) : m.multiply 10 = ⟨10 * m.cents, m.currency⟩ := by
  unfold Money.multiply Money.amountQ
  rw [show (m.cents : ℚ) / 100 * 10 = ((10 * m.cents : ℤ) : ℚ) / 100 by push_cast; ring]
  rw [halfUpCents_cents]

/-- C9 counterexample: for a client with credit limit 0 and no debt, a
purchase history of 1000.00 yields a recommendation of 300.00, which
exceeds 10 times the credit limit (0): the cap is skipped whenever
`credit_limit.amount > 0` fails. -/
theorem c9_counterexample :
    ClientValidator.recommend_credit_limit ⟨"active", ⟨⟨0, "ARS"⟩, ⟨0, "ARS"⟩⟩, none, 0⟩
      ⟨100000, "ARS"⟩ = .ok ⟨30000, "ARS"⟩ ∧ ¬((30000 : ℤ) ≤ 10 * 0) := by
  have hm : (Money.mk 100000 "ARS").multiply (3 / 10) = ⟨30000, "ARS"⟩ := by
    unfold Money.multiply Money.amountQ
    rw [show ((100000 : ℤ) : ℚ) / 100 * (3 / 10) = ((30000 : ℤ) : ℚ) / 100 by norm_num]
    rw [halfUpCents_cents]
  constructor
  · unfold ClientValidator.recommend_credit_limit
    simp [hm, Client.owes_money, ClientBalance.is_in_debt, Money.is_negative]
    rfl
  · norm_num

/-- C9 (amended): `recommend_credit_limit` starts from the half-up rounded
30% of the purchase history, raises it to the current debt when the client
owes money and the figure is below the debt, and then caps it at 10 times
the credit limit, but only when the limit is positive and with the cap
applied after the floor; hence the result is at most 10 times the limit
whenever the limit is positive, and at least the current debt whenever the
client owes money and the debt itself does not exceed the (active) cap. -/
theorem c9_recommend_limit_bounds : ∀ (c : Client) (hist r : Money),
    hist.currency = c.balance.current_balance.currency →
    c.balance.WF →
    ClientValidator.recommend_credit_limit c hist = .ok r →
    (0 < c.balance.credit_limit.cents → r.cents ≤ 10 * c.balance.credit_limit.cents) ∧
    (c.owes_money = true →
      (c.balance.credit_limit.cents ≤ 0 ∨
        c.balance.total_debt.cents ≤ 10 * c.balance.credit_limit.cents) →
      c.balance.total_debt.cents ≤ r.cents) := by
  intro c hist r hcur hwf hr
  obtain ⟨hcc, hcl⟩ := hwf
  unfold ClientValidator.recommend_credit_limit at hr
  by_cases howes : c.owes_money = true
  · have hneg : c.balance.current_balance.cents < 0 := by
      simpa [Client.owes_money, ClientBalance.is_in_debt, Money.is_negative] using howes
    have hdebt : c.balance.total_debt = c.balance.current_balance.abs := by
      simp [ClientBalance.total_debt, Money.is_negative, hneg]
    have hd : c.balance.total_debt.cents = -c.balance.current_balance.cents := by
      rw [hdebt]
      simp [Money.abs, abs_of_neg hneg]
    have hltc : (hist.multiply (3 / 10)).lt c.balance.total_debt
        = .ok (decide ((hist.multiply (3 / 10)).cents < c.balance.total_debt.cents)) := by
      unfold Money.lt
      rw [if_neg]
      simp [hdebt, Money.multiply, Money.abs, hcur]
    rw [howes] at hr
    simp only [if_true, hltc, Except.ok_bind] at hr
    by_cases hbelow : (hist.multiply (3 / 10)).cents < c.balance.total_debt.cents
    · simp only [hbelow, decide_True, if_true, Except.pure_eq, Except.ok_bind] at hr
      have hgtc : (c.balance.total_debt).gt (c.balance.credit_limit.multiply 10)
          = .ok (decide ((c.balance.credit_limit.multiply 10).cents
              < (c.balance.total_debt).cents)) := by
        unfold Money.gt
        rw [if_neg]
        simp [hdebt, money_multiply_ten, Money.abs, hcc]
      by_cases hpos : 0 < c.balance.credit_limit.cents
      · simp only [hpos, if_true, hgtc, Except.ok_bind] at hr
        by_cases habove : (c.balance.credit_limit.multiply 10).cents
            < c.balance.total_debt.cents
        · simp only [habove, decide_True, if_true, Except.pure_eq] at hr
          have hrc : r.cents = 10 * c.balance.credit_limit.cents := by
            rw [← Except.ok.inj hr]
            simp [money_multiply_ten]
          have habove2 : 10 * c.balance.credit_limit.cents < c.balance.total_debt.cents := by
            simpa [money_multiply_ten] using habove
          exact ⟨fun _ => by omega, fun _ hdisj => by rcases hdisj with h | h <;> omega⟩
        · simp only [habove, decide_False, Bool.false_eq_true, if_false, Except.pure_eq] at hr
          have hrc : r.cents = c.balance.total_debt.cents := by
            rw [← Except.ok.inj hr]
          have habove2 : ¬10 * c.balance.credit_limit.cents < c.balance.total_debt.cents := by
            intro hx
            exact habove (by simpa [money_multiply_ten] using hx)
          exact ⟨fun _ => by omega, fun _ _ => by omega⟩
      · simp only [hpos, if_false, Except.pure_eq] at hr
        have hrc : r.cents = c.balance.total_debt.cents := by
          rw [← Except.ok.inj hr]
        exact ⟨fun h => absurd h hpos, fun _ _ => by omega⟩
    · simp only [hbelow, decide_False, Bool.false_eq_true, if_false, Except.pure_eq,
        Except.ok_bind] at hr
      have hgtc : (hist.multiply (3 / 10)).gt (c.balance.credit_limit.multiply 10)
          = .ok (decide ((c.balance.credit_limit.multiply 10).cents
              < (hist.multiply (3 / 10)).cents)) := by
        unfold Money.gt
        rw [if_neg]
        simp [money_multiply_ten, Money.multiply, hcur, hcc]
      by_cases hpos : 0 < c.balance.credit_limit.cents
      · simp only [hpos, if_true, hgtc, Except.ok_bind] at hr
        by_cases habove : (c.balance.credit_limit.multiply 10).cents
            < (hist.multiply (3 / 10)).cents
        · simp only [habove, decide_True, if_true, Except.pure_eq] at hr
          have hrc : r.cents = 10 * c.balance.credit_limit.cents := by
            rw [← Except.ok.inj hr]
            simp [money_multiply_ten]
          exact ⟨fun _ => by omega, fun _ hdisj => by rcases hdisj with h | h <;> omega⟩
        · simp only [habove, decide_False, Bool.false_eq_true, if_false, Except.pure_eq] at hr
          have hrc : r.cents = (hist.multiply (3 / 10)).cents := by
            rw [← Except.ok.inj hr]
          have habove2 : ¬10 * c.balance.credit_limit.cents
              < (hist.multiply (3 / 10)).cents := by
            intro hx
            exact habove (by simpa [money_multiply_ten] using hx)
          exact ⟨fun _ => by omega, fun _ _ => by omega⟩
      · simp only [hpos, if_false, Except.pure_eq] at hr
        have hrc : r.cents = (hist.multiply (3 / 10)).cents := by
          rw [← Except.ok.inj hr]
        exact ⟨fun h => absurd h hpos, fun _ _ => by omega⟩
  · rw [Bool.not_eq_true] at howes
    rw [howes] at hr
    simp only [Bool.false_eq_true, if_false, Except.pure_eq, Except.ok_bind] at hr
    have hgtc : (hist.multiply (3 / 10)).gt (c.balance.credit_limit.multiply 10)
        = .ok (decide ((c.balance.credit_limit.multiply 10).cents
            < (hist.multiply (3 / 10)).cents)) := by
      unfold Money.gt
      rw [if_neg]
      simp [money_multiply_ten, Money.multiply, hcur, hcc]
    by_cases hpos : 0 < c.balance.credit_limit.cents
    · simp only [hpos, if_true, hgtc, Except.ok_bind] at hr
      by_cases habove : (c.balance.credit_limit.multiply 10).cents
          < (hist.multiply (3 / 10)).cents
      · simp only [habove, decide_True, if_true, Except.pure_eq] at hr
        have hrc : r.cents = 10 * c.balance.credit_limit.cents := by
          rw [← Except.ok.inj hr]
          simp [money_multiply_ten]
        refine ⟨fun _ => by omega, fun ho _ => ?_⟩
        rw [howes] at ho
        exact absurd ho (by simp)
      · simp only [habove, decide_False, Bool.false_eq_true, if_false, Except.pure_eq] at hr
        have hrc : r.cents = (hist.multiply (3 / 10)).cents := by
          rw [← Except.ok.inj hr]
        have habove2 : ¬10 * c.balance.credit_limit.cents
            < (hist.multiply (3 / 10)).cents := by
          intro hx
          exact habove (by simpa [money_multiply_ten] using hx)
        refine ⟨fun _ => by omega, fun ho _ => ?_⟩
        rw [howes] at ho
        exact absurd ho (by simp)
    · simp only [hpos, if_false, Except.pure_eq] at hr
      refine ⟨fun h => absurd h hpos, fun ho _ => ?_⟩
      rw [howes] at ho
      exact absurd ho (by simp)

/-- C9 witness: the bounds applied to an indebted client (debt 10.00, limit
1000.00) with an empty purchase history: the recommendation is floored at
the debt, within the cap. -/
theorem c9_recommend_limit_bounds_witness :
    ClientValidator.recommend_credit_limit
        ⟨"active", ⟨⟨-1000, "ARS"⟩, ⟨100000, "ARS"⟩⟩, none, 0⟩ ⟨0, "ARS"⟩
      = .ok ⟨1000, "ARS"⟩ ∧
    (Money.cents ⟨1000, "ARS"⟩ ≤ 10 * 100000) ∧
    (ClientBalance.total_debt ⟨⟨-1000, "ARS"⟩, ⟨100000, "ARS"⟩⟩).cents
      ≤ Money.cents ⟨1000, "ARS"⟩ := by
  have hm : (Money.mk 0 "ARS").multiply (3 / 10) = ⟨0, "ARS"⟩ := by
    unfold Money.multiply Money.amountQ
    rw [show ((0 : ℤ) : ℚ) / 100 * (3 / 10) = ((0 : ℤ) : ℚ) / 100 by norm_num]
    rw [halfUpCents_cents]
  have hok : ClientValidator.recommend_credit_limit
      ⟨"active", ⟨⟨-1000, "ARS"⟩, ⟨100000, "ARS"⟩⟩, none, 0⟩ ⟨0, "ARS"⟩
      = .ok ⟨1000, "ARS"⟩ := by
    unfold ClientValidator.recommend_credit_limit
    simp [hm, Client.owes_money, ClientBalance.is_in_debt, Money.is_negative,
      ClientBalance.total_debt, Money.abs, Money.lt, Money.gt, money_multiply_ten,
      Except.pure_eq, Except.ok_bind]
  have h := c9_recommend_limit_bounds
    ⟨"active", ⟨⟨-1000, "ARS"⟩, ⟨100000, "ARS"⟩⟩, none, 0⟩ ⟨0, "ARS"⟩ ⟨1000, "ARS"⟩
    rfl ⟨rfl, by decide⟩ hok
  exact ⟨hok, h.1 (by decide), h.2 (by decide) (.inr (by decide))⟩

theorem natDigitsF_stable (f1 : ℕ) : ∀ (n f2 : ℕ), n < f1 → n < f2 →
    natDigitsF f1 n = natDigitsF f2 n := by
  induction f1 with
  | zero => intro n f2 h1 _; omega
  | succ f ih =>
    intro n f2 h1 h2
    cases f2 with
    | zero => omega
    | succ g =>
      simp only [natDigitsF]
      by_cases hn : n < 10
      · simp [hn]
      · simp only [hn, if_false]
        rw [ih (n / 10) g (by omega) (by omega)]

theorem natDigits_eq (n : ℕ) : natDigits n
    = if n < 10 then [Char.ofNat (48 + n)]
      else natDigits (n / 10) ++ [Char.ofNat (48 + n % 10)] := by
  unfold natDigits
  conv_lhs => rw [show natDigitsF (n + 1) n
    = if n < 10 then [Char.ofNat (48 + n)]
      else natDigitsF n (n / 10) ++ [Char.ofNat (48 + n % 10)] from rfl]
  by_cases hn : n < 10
  · simp [hn]
  · simp only [hn, if_false]
    rw [natDigitsF_stable n (n / 10) (n / 10 + 1) (by omega) (by omega)]

theorem digitChar_isDigit (d : ℕ) (h : d < 10) : (Char.ofNat (48 + d)).isDigit = true := by
  interval_cases d <;> decide

theorem digitChar_toNat (d : ℕ) (h : d < 10) : (Char.ofNat (48 + d)).toNat - 48 = d := by
  interval_cases d <;> decide

theorem digitChar_ne_dash (d : ℕ) (h : d < 10) : Char.ofNat (48 + d) ≠ '-' := by
  interval_cases d <;> decide

theorem natDigits_all_digits (n : ℕ) : ∀ ch ∈ natDigits n, ch.isDigit = true := by
  induction n using Nat.strong_induction_on with
  | _ n ih =>
    rw [natDigits_eq]
    by_cases hn : n < 10
    · simp only [hn, if_true, List.mem_singleton]
      intro ch hch
      rw [hch]
      exact digitChar_isDigit n hn
    · simp only [hn, if_false]
      intro ch hch
      rcases List.mem_append.mp hch with h | h
      · exact ih (n / 10) (by omega) ch h
      · rw [List.mem_singleton.mp h]
        exact digitChar_isDigit (n % 10) (by omega)

theorem natDigits_ne_nil (n : ℕ) : natDigits n ≠ [] := by
  rw [natDigits_eq]
  by_cases hn : n < 10
  · simp [hn]
  · simp [hn]

theorem natDigits_no_dash (n : ℕ) : '-' ∉ natDigits n := by
  intro hmem
  have := natDigits_all_digits n '-' hmem
  exact absurd this (by decide)

theorem natDigits_foldl (n : ℕ) : ∀ acc : ℕ,
    (natDigits n).foldl (fun a ch => 10 * a + (ch.toNat - 48)) acc
      = acc * 10 ^ (natDigits n).length + n := by
  induction n using Nat.strong_induction_on with
  | _ n ih =>
    intro acc
    rw [natDigits_eq]
    by_cases hn : n < 10
    · simp only [hn, if_true, List.foldl_cons, List.foldl_nil, List.length_singleton]
      rw [digitChar_toNat n hn]
      ring
    · simp only [hn, if_false, List.foldl_append, List.foldl_cons, List.foldl_nil,
        List.length_append, List.length_singleton]
      rw [ih (n / 10) (by omega) acc, digitChar_toNat (n % 10) (by omega)]
      rw [pow_succ]
      have hdm : 10 * (n / 10) + n % 10 = n := Nat.div_add_mod n 10
      ring_nf
      omega

theorem pyInt_natDigits (n : ℕ) : pyInt (natDigits n) = some n := by
  unfold pyInt
  rw [if_pos ⟨natDigits_ne_nil n, List.all_eq_true.mpr (natDigits_all_digits n)⟩]
  rw [natDigits_foldl n 0]
  simp

theorem foldl_replicate_zeros (k : ℕ) (l : List Char) :
    (List.replicate k '0' ++ l).foldl (fun a ch => 10 * a + (ch.toNat - 48)) 0
      = l.foldl (fun a ch => 10 * a + (ch.toNat - 48)) 0 := by
  induction k with
  | zero => rfl
  | succ m ih => simpa [List.replicate_succ] using ih

theorem zfill_all_digits (w : ℕ) (l : List Char) (h : ∀ ch ∈ l, ch.isDigit = true) :
    ∀ ch ∈ zfill w l, ch.isDigit = true := by
  intro ch hch
  rcases List.mem_append.mp hch with hm | hm
  · rw [List.eq_of_mem_replicate hm]
    decide
  · exact h ch hm

theorem zfill_ne_nil (w : ℕ) (l : List Char) (h : l ≠ []) : zfill w l ≠ [] := by
  unfold zfill
  intro hx
  exact h (List.append_eq_nil.mp hx).2

theorem pyInt_zfill (w n : ℕ) : pyInt (zfill w (natDigits n)) = some n := by
  unfold pyInt
  rw [if_pos ⟨zfill_ne_nil w _ (natDigits_ne_nil n),
    List.all_eq_true.mpr (zfill_all_digits w _ (natDigits_all_digits n))⟩]
  unfold zfill
  rw [foldl_replicate_zeros, natDigits_foldl n 0]
  simp

theorem zfill_no_dash (w : ℕ) (l : List Char) (h : '-' ∉ l) : '-' ∉ zfill w l := by
  intro hch
  rcases List.mem_append.mp hch with hm | hm
  · have := List.eq_of_mem_replicate hm
    exact absurd this (by decide)
  · exact h hm

theorem zfill_length (w : ℕ) (l : List Char) (h : l.length ≤ w) :
    (zfill w l).length = w := by
  simp only [zfill, List.length_append, List.length_replicate]
  omega

theorem natDigits_length_le_two (n : ℕ) (h : n < 100) : (natDigits n).length ≤ 2 := by
  rw [natDigits_eq]
  by_cases hn : n < 10
  · simp [hn]
  · simp only [hn, if_false, List.length_append, List.length_singleton]
    rw [natDigits_eq, if_pos (by omega : n / 10 < 10)]
    simp

theorem natDigits_length_four (n : ℕ) (h1 : 1000 ≤ n) (h2 : n ≤ 9999) :
    (natDigits n).length = 4 := by
  rw [natDigits_eq, if_neg (by omega)]
  rw [natDigits_eq, if_neg (by omega : ¬n / 10 < 10)]
  rw [natDigits_eq, if_neg (by omega : ¬n / 10 / 10 < 10)]
  rw [natDigits_eq, if_pos (by omega : n / 10 / 10 / 10 < 10)]
  simp

theorem splitDash_no_dash (l : List Char) (h : '-' ∉ l) : splitDash l = [l] := by
  induction l with
  | nil => rfl
  | cons c rest ih =>
    have hc : ¬c = '-' := fun e => h (e ▸ List.mem_cons_self c rest)
    simp only [splitDash, if_neg hc]
    rw [ih (fun hm => h (List.mem_cons_of_mem c hm))]

theorem splitDash_append_dash (a l : List Char) (h : '-' ∉ a) :
    splitDash (a ++ '-' :: l) = a :: splitDash l := by
  induction a with
  | nil => simp [splitDash]
  | cons c rest ih =>
    have hc : ¬c = '-' := fun e => h (e ▸ List.mem_cons_self c rest)
    simp only [List.cons_append, splitDash, if_neg hc]
    rw [show rest.append ('-' :: l) = rest ++ '-' :: l from rfl,
      ih (fun hm => h (List.mem_cons_of_mem c hm))]

/-- C6 (amended): `generate("invoice", 42, 2024-06-15)` is
`INV-20240615-0042`, `parse` of that string returns invoice / 2024-06-15 /
sequence 42, and for every valid type, every sequence, and every valid date
whose year has four digits (1000 ≤ year), `parse(generate(t, s, d))`
reproduces `(t, s, d)`.  (For years below 1000 the `%Y` field of glibc
`strftime` is not zero-padded and the round trip breaks.) -/
theorem c6_number_roundtrip :
    TransactionNumberGenerator.generate "invoice" 42 ⟨2024, 6, 15⟩
      = .ok "INV-20240615-0042".toList ∧
    TransactionNumberGenerator.parse "INV-20240615-0042".toList
      = .ok ⟨some "invoice", ⟨2024, 6, 15⟩, 42, "INV"⟩ ∧
    (∀ (ty pre : String) (s : ℕ) (d : PyDate),
      (ty, pre) ∈ PREFIX_MAP → d.valid = true → 1000 ≤ d.year →
      TransactionNumberGenerator.generate ty s d
        = .ok (pre.toList ++ '-' :: d.strftimeYmd ++ '-' :: zfill 4 (natDigits s)) ∧
      TransactionNumberGenerator.parse
          (pre.toList ++ '-' :: d.strftimeYmd ++ '-' :: zfill 4 (natDigits s))
        = .ok ⟨some ty, d, s, pre⟩) := by
  refine ⟨by decide, by decide, ?_⟩
  intro ty pre s d hmem hvalid hy
  have hfacts : List.lookup ty PREFIX_MAP = some pre ∧ '-' ∉ pre.toList ∧
      ((PREFIX_MAP.map Prod.snd).contains (String.mk pre.toList) = true) ∧
      (PREFIX_MAP.find? (fun q => q.2 = String.mk pre.toList)) = some (ty, pre) := by
    simp only [PREFIX_MAP, List.mem_cons, List.not_mem_nil, or_false] at hmem
    rcases hmem with h | h | h | h <;>
      (injection h with h1 h2; subst h1; subst h2;
        exact ⟨by decide, by decide, by decide, by decide⟩)
  obtain ⟨hlk, hpd, hct, hfd⟩ := hfacts
  have hv := hvalid
  simp only [PyDate.valid, Bool.and_eq_true, decide_eq_true_eq] at hv
  obtain ⟨hy1, hy2, hm1, hm2, hd1, hd2⟩ := hv
  have hdmax : daysInMonth d.year d.month ≤ 31 := by
    unfold daysInMonth
    split_ifs <;> omega
  have hylen : (natDigits d.year).length = 4 := natDigits_length_four d.year hy hy2
  have hmlen : (zfill 2 (natDigits d.month)).length = 2 :=
    zfill_length 2 _ (natDigits_length_le_two d.month (by omega))
  have hdlen : (zfill 2 (natDigits d.day)).length = 2 :=
    zfill_length 2 _ (natDigits_length_le_two d.day (by omega))
  have hds_assoc : d.strftimeYmd
      = natDigits d.year ++ (zfill 2 (natDigits d.month) ++ zfill 2 (natDigits d.day)) := by
    unfold PyDate.strftimeYmd
    rw [List.append_assoc]
  have hds_nd : '-' ∉ d.strftimeYmd := by
    rw [hds_assoc]
    intro hmm
    rcases List.mem_append.mp hmm with h | h
    · exact natDigits_no_dash d.year h
    · rcases List.mem_append.mp h with h | h
      · exact zfill_no_dash 2 _ (natDigits_no_dash d.month) h
      · exact zfill_no_dash 2 _ (natDigits_no_dash d.day) h
  have hzs_nd : '-' ∉ zfill 4 (natDigits s) := zfill_no_dash 4 _ (natDigits_no_dash s)
  have hsplit : splitDash (pre.toList ++ '-' :: d.strftimeYmd ++ '-' :: zfill 4 (natDigits s))
      = [pre.toList, d.strftimeYmd, zfill 4 (natDigits s)] := by
    rw [List.append_assoc, List.cons_append]
    rw [splitDash_append_dash _ _ hpd, splitDash_append_dash _ _ hds_nd,
      splitDash_no_dash _ hzs_nd]
  have ht4 : d.strftimeYmd.take 4 = natDigits d.year := by
    rw [hds_assoc]
    exact List.take_left' hylen
  have hd4 : d.strftimeYmd.drop 4 = zfill 2 (natDigits d.month) ++ zfill 2 (natDigits d.day) := by
    rw [hds_assoc]
    exact List.drop_left' hylen
  have ht2 : (d.strftimeYmd.drop 4).take 2 = zfill 2 (natDigits d.month) := by
    rw [hd4]
    exact List.take_left' hmlen
  have hd6 : d.strftimeYmd.drop 6 = zfill 2 (natDigits d.day) := by
    have hdd : d.strftimeYmd.drop 6 = (d.strftimeYmd.drop 4).drop 2 := by
      rw [List.drop_drop]
    rw [hdd, hd4, List.drop_left' hmlen]
  have ht2b : (d.strftimeYmd.drop 6).take 2 = zfill 2 (natDigits d.day) := by
    rw [hd6]
    exact List.take_of_length_le (by rw [hdlen])
  have hpy1 : pyInt (d.strftimeYmd.take 4) = some d.year := by
    rw [ht4, pyInt_natDigits]
  have hpy2 : pyInt ((d.strftimeYmd.drop 4).take 2) = some d.month := by
    rw [ht2, pyInt_zfill]
  have hpy3 : pyInt ((d.strftimeYmd.drop 6).take 2) = some d.day := by
    rw [ht2b, pyInt_zfill]
  have hpys : pyInt (zfill 4 (natDigits s)) = some s := pyInt_zfill 4 s
  constructor
  · unfold TransactionNumberGenerator.generate
    rw [hlk]
  · unfold TransactionNumberGenerator.parse
    rw [hsplit]
    simp only [hct, Bool.not_eq_true, if_false, hpy1, hpy2, hpy3, hpys, hfd]
    rw [if_pos hvalid]
    simp

/-- C6 counterexample: for the valid date 0999-01-01, the `%Y` field has
only three digits (no zero padding on glibc), the parser slices the
seven-digit date string at fixed offsets, and the round trip silently
returns the wrong date 9990-10-01 instead of failing or reproducing the
input. -/
theorem c6_counterexample :
    TransactionNumberGenerator.generate "invoice" 42 ⟨999, 1, 1⟩
      = .ok "INV-9990101-0042".toList ∧
    TransactionNumberGenerator.parse "INV-9990101-0042".toList
      = .ok ⟨some "invoice", ⟨9990, 10, 1⟩, 42, "INV"⟩ ∧
    (PyDate.mk 9990 10 1 ≠ ⟨999, 1, 1⟩) ∧ PyDate.valid ⟨999, 1, 1⟩ = true := by
  decide

/-- C6 witness: the round trip applied to a payment, sequence 10000 (wider
than four digits, not truncated) and the date 2025-12-31. -/
theorem c6_number_roundtrip_witness :
    TransactionNumberGenerator.generate "payment" 10000 ⟨2025, 12, 31⟩
      = .ok "PAY-20251231-10000".toList ∧
    TransactionNumberGenerator.parse "PAY-20251231-10000".toList
      = .ok ⟨some "payment", ⟨2025, 12, 31⟩, 10000, "PAY"⟩ := by
  have h := c6_number_roundtrip.2.2 "payment" "PAY" 10000 ⟨2025, 12, 31⟩ (by decide)
    (by decide) (by decide)
  exact ⟨h.1, h.2⟩

/-- C4 witness: the guards applied to a concrete pending transaction being
marked as paid — the first call succeeds and sets `completed`. -/
theorem c4_transaction_method_guards_witness :
    ((Transaction.mk "pending" none none none none [] 0).mark_as_paid "cash" none 3).2.payment_status
      = "completed" :=
  (c4_transaction_method_guards (Transaction.mk "pending" none none none none [] 0)
    "cash" none none 0 3).2.1 (by decide)
